import Mathlib

/-!
Verification of the referral-reconciliation pipeline (process_referrals.py).

The script loads seven CSV tables, cleans three of them (title-casing of
name columns, numeric coercion of reward_value, timezone localization of
transaction_at), left-joins log / reward / transaction / referrer data onto
the user_referrals table, evaluates a two-branch business-validity
predicate per joined row, and writes a report.

Shallow embedding conventions:
- a cell value is `Cell` (null / string / integer / timestamp / an object
  whose str() raises); a raw column-named table is `DF`, a list of
  (column name, values) pairs;
- the join pipeline is embedded over typed row structures (the tables'
  declared schemas), with `Option` for every nullable field;
- timestamps are parsed by `parseDT`, a restriction of the dateutil /
  pandas parsers to ISO-8601 forms `YYYY-MM-DD[( |T)HH:MM[:SS][Z|+HH:MM]]`;
  a parsed value is a `DT`: wall-clock seconds since the epoch plus an
  optional zone offset.  `pd.to_datetime(..., errors='coerce')` maps null
  and unparseable input alike to null, embedded as `Option.bind parseDT`;
- string case functions are restricted to ASCII;
- the timezone database (pytz) is embedded as a fragment `tzOffsets`
  containing only zones whose offset is DST-free at every instant the
  development touches.
-/

/-! ### ASCII string helpers (str.lower / str.upper / str.title) -/

def toLowerCh (c : Char) : Char := if c.isUpper then Char.ofNat (c.toNat + 32) else c

def toUpperCh (c : Char) : Char := if c.isLower then Char.ofNat (c.toNat - 32) else c

def strLower (s : String) : String := ⟨s.data.map toLowerCh⟩

def strUpper (s : String) : String := ⟨s.data.map toUpperCh⟩

/-- Python `str.title`: a letter is upper-cased when the preceding character
is not a letter, lower-cased otherwise (ASCII restriction). -/
def titleGo : Bool → List Char → List Char
  | _, [] => []
  | prev, c :: cs =>
    (if c.isAlpha then (if prev then toLowerCh c else toUpperCh c) else c) :: titleGo c.isAlpha cs

def pyTitle (s : String) : String := ⟨titleGo false s.data⟩

/-- Python `pat in s` substring test. -/
def subStr (pat s : String) : Bool := decide (List.IsInfix pat.data s.data)

/-! ### Timestamps

`DT` is a parsed datetime: `wall` is the civil (wall-clock) time as seconds
since 1970-01-01 00:00, `tz` the zone offset east of UTC in seconds when the
value is zone-aware (`none` = naive).  The instant a zone-aware value
denotes is `wall - offset` in UTC seconds. -/

structure DT where
  wall : Int
  tz : Option Int
deriving DecidableEq

def dtInstant (d : DT) : Int := d.wall - (match d.tz with | some z => z | none => 0)

def digitVal (c : Char) : Option Nat :=
  if c.isDigit then some (c.toNat - 48) else none

/-- Read exactly `w` decimal digits, most significant first. -/
def readFixed : Nat → Nat → List Char → Option (Nat × List Char)
  | 0, acc, cs => some (acc, cs)
  | w + 1, acc, cs =>
    match cs with
    | [] => none
    | c :: rest =>
      match digitVal c with
      | some d => readFixed w (acc * 10 + d) rest
      | none => none

def expectCh (c : Char) : List Char → Option (List Char)
  | [] => none
  | x :: xs => if x == c then some xs else none

def isLeap (y : Nat) : Bool := (y % 4 == 0 && y % 100 != 0) || y % 400 == 0

def monthLen (y m : Nat) : Nat :=
  if m == 2 then (if isLeap y then 29 else 28)
  else if m == 4 || m == 6 || m == 9 || m == 11 then 30
  else 31

/-- Days from 1970-01-01 to y-m-d in the proleptic Gregorian calendar
(Howard Hinnant's civil-date algorithm, valid for year ≥ 1), offset by
719468 so the result is a `Nat` (day 719468 = 1970-01-01). -/
def daysFromCivil (y m d : Nat) : Nat :=
  let ys := if m ≤ 2 then y - 1 else y
  let era := ys / 400
  let yoe := ys % 400
  let mp := (m + 9) % 12
  let doy := (153 * mp + 2) / 5 + d - 1
  let doe := yoe * 365 + yoe / 4 - yoe / 100 + doy
  era * 146097 + doe

/-- Inverse of `daysFromCivil` (same 719468-day offset). -/
def civilFromDays (z : Nat) : Nat × Nat × Nat :=
  let era := z / 146097
  let doe := z % 146097
  let yoe := (doe - doe / 1460 + doe / 36524 - doe / 146096) / 365
  let y := yoe + era * 400
  let doy := doe - (365 * yoe + yoe / 4 - yoe / 100)
  let mp := (5 * doy + 2) / 153
  let d := doy - (153 * mp + 2) / 5 + 1
  let m := if mp < 10 then mp + 3 else mp - 9
  (if m ≤ 2 then y + 1 else y, m, d)

/-- Wall-clock seconds since the epoch of a civil date-time. -/
def civilSecs (y m d hh mi ss : Nat) : Int :=
  ((daysFromCivil y m d : Int) - 719468) * 86400 + (hh * 3600 + mi * 60 + ss : Nat)

/-- The zone suffix of an ISO-8601 string: nothing (naive), `Z`, or
`±HH:MM`. -/
def readZone (wall : Int) : List Char → Option DT
  | [] => some ⟨wall, none⟩
  | ['Z'] => some ⟨wall, some 0⟩
  | sgn :: rest =>
    if sgn == '+' || sgn == '-' then do
      let (oh, rest) ← readFixed 2 0 rest
      let rest ← expectCh ':' rest
      let (om, rest) ← readFixed 2 0 rest
      if rest.isEmpty && oh ≤ 23 && om ≤ 59 then
        let off : Int := (oh * 3600 + om * 60 : Nat)
        some ⟨wall, some (if sgn == '-' then -off else off)⟩
      else none
    else none

/-- `dateutil.parser.parse` / `pd.to_datetime`, restricted to the ISO-8601
grammar `YYYY-MM-DD[( |T)HH:MM[:SS][Z|±HH:MM]]` with calendar validation.
Returns `none` exactly where the library parsers raise (embedded callers
catch that as null). -/
def parseDT (s : String) : Option DT := do
  let cs := s.data
  let (y, cs) ← readFixed 4 0 cs
  let cs ← expectCh '-' cs
  let (m, cs) ← readFixed 2 0 cs
  let cs ← expectCh '-' cs
  let (d, cs) ← readFixed 2 0 cs
  if m < 1 || 12 < m || d < 1 || monthLen y m < d then none
  else
    match cs with
    | [] => some ⟨civilSecs y m d 0 0 0, none⟩
    | sep :: cs =>
      if sep == 'T' || sep == ' ' then do
        let (hh, cs) ← readFixed 2 0 cs
        let cs ← expectCh ':' cs
        let (mi, cs) ← readFixed 2 0 cs
        let (ss, cs) ←
          match cs with
          | ':' :: rest => do
            let (v, rest2) ← readFixed 2 0 rest
            pure (v, rest2)
          | other => pure (0, other)
        if 23 < hh || 59 < mi || 59 < ss then none
        else readZone (civilSecs y m d hh mi ss) cs
      else none

def pad2 (n : Nat) : String := if n < 10 then "0" ++ toString n else toString n

def pad4 (n : Nat) : String :=
  if n < 10 then "000" ++ toString n
  else if n < 100 then "00" ++ toString n
  else if n < 1000 then "0" ++ toString n
  else toString n

/-- Render the wall-clock part of a `DT` as `YYYY-MM-DD<sep>HH:MM:SS`
(post-epoch values only; the pipeline touches no earlier instant). -/
def formatWall (sep : String) (w : Int) : String :=
  if w < 0 then "" else
  let t := w.toNat
  let days := t / 86400
  let secs := t % 86400
  let c := civilFromDays (days + 719468)
  pad4 c.1 ++ "-" ++ pad2 c.2.1 ++ "-" ++ pad2 c.2.2 ++ sep ++
    pad2 (secs / 3600) ++ ":" ++ pad2 ((secs % 3600) / 60) ++ ":" ++ pad2 (secs % 60)

def formatOffset (z : Int) : String :=
  (if z < 0 then "-" else "+") ++ pad2 (z.natAbs / 3600) ++ ":" ++ pad2 ((z.natAbs % 3600) / 60)

/-! ### Cells and raw tables -/

/-- One cell of a raw table: null (NaN/None/NaT), a string, an integer, a
timestamp, or an object whose `str()` raises. -/
inductive Cell where
  | null
  | str (s : String)
  | num (n : Int)
  | ts (d : DT)
  | obj
deriving DecidableEq

/-- Python `str(v)` where it succeeds (`none` = raises).  `str(float nan)`
is `"nan"`; a zone-aware timestamp renders with its offset suffix. -/
def pyStr : Cell → Option String
  | .null => some "nan"
  | .str s => some s
  | .num n => some (toString n)
  | .ts d => some (formatWall " " d.wall ++ (match d.tz with | none => "" | some z => formatOffset z))
  | .obj => none

/-- A raw table, column-major: (column name, values) pairs. -/
abbrev DF : Type := List (String × List Cell)

def colNames (df : DF) : List String := df.map Prod.fst

def getCol (df : DF) (c : String) : List Cell :=
  match df.find? (fun col => col.1 == c) with
  | some col => col.2
  | none => []

def numRows (df : DF) : Nat :=
  match df with
  | [] => 0
  | c :: _ => c.2.length

/-! ### Table Loader (read_csv) -/

inductive LoadMsg where
  | reading (name : String)
  | missing (name : String)
deriving DecidableEq

/-- `read_csv`: look the named source up in the file system `fs`; a missing
source yields the empty dataset and a warning, never an error.  The
returned message is the console signal the script prints. -/
def read_csv (fs : String → Option DF) (name : String) : DF × LoadMsg :=
  match fs name with
  | some t => (t, .reading name)
  | none => (([] : DF), .missing name)

/-! ### Normalizer -/

/-- `safe_initcap`: nulls pass through; any other value is stringified and
title-cased; a value whose `str()` raises is passed through unchanged. -/
def safe_initcap (val : Cell) : Cell :=
  if val = .null then val
  else
    match pyStr val with
    | some s => .str (pyTitle s)
    | none => val

/-- The cleaning loop's column test: `"name" in col and "homeclub" not in col`. -/
def capColumn (c : String) : Bool := subStr "name" c && !subStr "homeclub" c

/-- One table's pass of the initcap loop. -/
def initcapTable (df : DF) : DF :=
  df.map (fun col => if capColumn col.1 then (col.1, col.2.map safe_initcap) else col)

/-- `int(s)` on an optionally signed decimal string (the float forms of
`pd.to_numeric` are not modelled; every reward in the claims is integral). -/
def parseIntCell (s : String) : Option Int :=
  match s.data with
  | '-' :: rest =>
    if rest.isEmpty then none
    else (readFixed rest.length 0 rest).map (fun p => -(p.1 : Int))
  | cs =>
    if cs.isEmpty then none
    else (readFixed cs.length 0 cs).map (fun p => (p.1 : Int))

/-- `pd.to_numeric(_, errors='coerce')` on one cell. -/
def toNumeric : Cell → Cell
  | .null => .null
  | .num n => .num n
  | .str s => match parseIntCell s with | some n => .num n | none => .null
  | .ts _ => .null
  | .obj => .null

/-- The reward-coercion block: only acts when a `reward_value` column exists. -/
def coerceRewards (df : DF) : DF :=
  if (colNames df).contains "reward_value" then
    df.map (fun col => if col.1 == "reward_value" then (col.1, col.2.map toNumeric) else col)
  else df

/-- Fragment of the pytz zone database (offset east of UTC in seconds).
Only zones with a fixed, DST-free offset are included. -/
def tzOffsets : List (String × Int) :=
  [("UTC", 0), ("Asia/Jakarta", 25200), ("Asia/Makassar", 28800), ("Asia/Tokyo", 32400)]

def lookupTZ (n : String) : Option Int :=
  (tzOffsets.find? (fun p => p.1 == n)).map Prod.snd

/-- `utc_to_local`: null in, null out; parse the stringified timestamp
(failure → null); a naive result is localized to UTC; a recognized zone
name converts the instant to that zone and drops the zone annotation;
otherwise the (possibly just UTC-localized) value is returned unchanged. -/
def utc_to_local (ts : Option String) (tz_name : Option String) : Option DT :=
  match ts with
  | none => none
  | some s =>
    match parseDT s with
    | none => none
    | some dt0 =>
      let dt := match dt0.tz with | none => ⟨dt0.wall, some 0⟩ | some _ => dt0
      match tz_name with
      | none => some dt
      | some n =>
        match lookupTZ n with
        | some off => some ⟨dtInstant dt + off, none⟩
        | none => some dt

/-- The argument the row lambda passes to `utc_to_local`: null is kept as
null (`pd.isnull` guard), other values are stringified (`str(ts)`; a raising
`str()` is caught by the surrounding try and also yields null). -/
def cellStrOpt (v : Cell) : Option String :=
  if v = .null then none else pyStr v

/-- The timezone-conversion block: when both columns exist, append the
derived `transaction_at_local` column, computed row-wise. -/
def addLocalColumn (df : DF) : DF :=
  if (colNames df).contains "transaction_at" && (colNames df).contains "timezone_transaction" then
    df ++ [("transaction_at_local",
      List.zipWith
        (fun a z =>
          match utc_to_local (cellStrOpt a) (cellStrOpt z) with
          | some d => Cell.ts d
          | none => Cell.null)
        (getCol df "transaction_at") (getCol df "timezone_transaction"))]
  else df

/-- The four tables the cleaning block reads or writes. -/
structure Tables where
  user_referrals : DF
  user_logs : DF
  referral_rewards : DF
  paid_transactions : DF
deriving DecidableEq

/-- The initcap loop (runs over user_referrals and user_logs). -/
def cleanNamesStep (t : Tables) : Tables :=
  { t with user_referrals := initcapTable t.user_referrals,
           user_logs := initcapTable t.user_logs }

/-- The reward-coercion statement. -/
def coerceRewardStep (t : Tables) : Tables :=
  { t with referral_rewards := coerceRewards t.referral_rewards }

/-- The timezone-conversion statement. -/
def localizeStep (t : Tables) : Tables :=
  { t with paid_transactions := addLocalColumn t.paid_transactions }

/-! ### Typed rows for the join pipeline

The joins run on the tables' declared schemas (spec §3); every nullable
field is an `Option`.  Timestamp-valued columns are carried as their raw
string form (the validator re-parses them, as the script does), except the
derived `transaction_at_local`, which the Normalizer already produced as a
parsed value. -/

structure Referral where
  referral_id : Nat
  referral_source : Option String
  referral_at : Option String
  referrer_id : Option Nat
  referee_id : Option Nat
  referral_reward_id : Option Nat
  transaction_id : Option String
deriving DecidableEq

structure LogRow where
  user_referral_id : Nat
  created_at : Nat
  description : Option String
deriving DecidableEq

structure RewardRow where
  id : Nat
  reward_value : Option Int
  reward_granted_at : Option String
deriving DecidableEq

structure TransRow where
  transaction_id : String
  transaction_status : Option String
  transaction_type : Option String
  transaction_at : Option String
  timezone_transaction : Option String
  transaction_at_local : Option DT
deriving DecidableEq

structure UserRow where
  user_id : Nat
  name : Option String
  phone_number : Option String
  homeclub : Option String
deriving DecidableEq

/-- The wide reconciled record: the Referral columns plus every joined
column, null when its join stage found no match (or was skipped). -/
structure Rec where
  referral_id : Nat
  referral_source : Option String
  referral_at : Option String
  referrer_id : Option Nat
  referee_id : Option Nat
  referral_reward_id : Option Nat
  transaction_id : Option String
  created_at : Option Nat
  description : Option String
  reward_value : Option Int
  reward_granted_at : Option String
  transaction_status : Option String
  transaction_type : Option String
  transaction_at : Option String
  timezone_transaction : Option String
  transaction_at_local : Option DT
  referrer_name : Option String
  referrer_phone_number : Option String
  referrer_homeclub : Option String
deriving DecidableEq

/-- `df = user_referrals.copy()`: the anchor row with no joined columns. -/
def initRec (r : Referral) : Rec :=
  { referral_id := r.referral_id
    referral_source := r.referral_source
    referral_at := r.referral_at
    referrer_id := r.referrer_id
    referee_id := r.referee_id
    referral_reward_id := r.referral_reward_id
    transaction_id := r.transaction_id
    created_at := none
    description := none
    reward_value := none
    reward_granted_at := none
    transaction_status := none
    transaction_type := none
    transaction_at := none
    timezone_transaction := none
    transaction_at_local := none
    referrer_name := none
    referrer_phone_number := none
    referrer_homeclub := none }

/-! ### Latest-log deduplication

`user_referral_logs.sort_values('created_at').groupby('user_referral_id').last()`:
a stable ascending sort on created_at, then, per group and per column
independently, the last non-null entry (pandas `GroupBy.last` skips nulls
column-wise).  Group keys come out sorted (`groupby(sort=True)`).
`sort_values(kind='quicksort')` does not promise stability on ties; the
spec documents the stable behaviour (§4.4, §9) and the embedding follows
it. -/

def sortLogs (logs : List LogRow) : List LogRow :=
  List.insertionSort (fun a b => a.created_at ≤ b.created_at) logs

instance : DecidableRel (fun a b : LogRow => a.created_at ≤ b.created_at) :=
  fun a b => Nat.decLe a.created_at b.created_at

instance : IsTotal LogRow (fun a b => a.created_at ≤ b.created_at) :=
  ⟨fun a b => Nat.le_total a.created_at b.created_at⟩

instance : IsTrans LogRow (fun a b => a.created_at ≤ b.created_at) :=
  ⟨fun _ _ _ => Nat.le_trans⟩

/-- The distinct group keys, ascending. -/
def logKeys (logs : List LogRow) : List Nat :=
  List.insertionSort (fun a b => a ≤ b) ((logs.map (fun r => r.user_referral_id)).dedup)

/-- The last non-null entry of a column (pandas `GroupBy.last`). -/
def lastSome {α : Type} (l : List (Option α)) : Option α :=
  l.foldl (fun acc o => match o with | some v => some v | none => acc) none

/-- One deduplicated log row (the group key plus per-column last values). -/
structure LatestLog where
  user_referral_id : Nat
  created_at : Nat
  description : Option String
deriving DecidableEq

/-- One group of the `groupby`: the sorted rows sharing the key `k`. -/
def groupRows (logs : List LogRow) (k : Nat) : List LogRow :=
  (sortLogs logs).filter (fun r => r.user_referral_id == k)

def latestLogs (logs : List LogRow) : List LatestLog :=
  (logKeys logs).map (fun k =>
    { user_referral_id := k
      created_at := match (groupRows logs k).getLast? with | some r => r.created_at | none => 0
      description := lastSome ((groupRows logs k).map (fun r => r.description)) })

/-! ### The four left-join stages -/

/-- `DataFrame.merge(how='left')` anchored on the accumulated records: each
record is kept once per matching right row, or once unchanged when nothing
matches. -/
def leftJoin1 {τ : Type} (recs : List Rec) (tbl : List τ)
    (hit : Rec → τ → Bool) (upd : Rec → τ → Rec) : List Rec :=
  recs.flatMap (fun x =>
    match tbl.filter (hit x) with
    | [] => [x]
    | m :: ms => (m :: ms).map (upd x))

def mergeLogs (recs : List Rec) (logs : List LogRow) : List Rec :=
  if logs.isEmpty then recs
  else
    leftJoin1 recs (latestLogs logs)
      (fun x m => x.referral_id == m.user_referral_id)
      (fun x m => { x with created_at := some m.created_at, description := m.description })

def mergeRewards (recs : List Rec) (rewards : List RewardRow) : List Rec :=
  if rewards.isEmpty then recs
  else
    leftJoin1 recs rewards
      (fun x w => x.referral_reward_id == some w.id)
      (fun x w => { x with reward_value := w.reward_value,
                           reward_granted_at := w.reward_granted_at })

def mergeTransactions (recs : List Rec) (txs : List TransRow) : List Rec :=
  if txs.isEmpty then recs
  else
    leftJoin1 recs txs
      (fun x t => x.transaction_id == some t.transaction_id)
      (fun x t => { x with transaction_status := t.transaction_status,
                           transaction_type := t.transaction_type,
                           transaction_at := t.transaction_at,
                           timezone_transaction := t.timezone_transaction,
                           transaction_at_local := t.transaction_at_local })

def mergeReferrers (recs : List Rec) (users : List UserRow) : List Rec :=
  if users.isEmpty then recs
  else
    leftJoin1 recs users
      (fun x u => x.referrer_id == some u.user_id)
      (fun x u => { x with referrer_name := u.name,
                           referrer_phone_number := u.phone_number,
                           referrer_homeclub := u.homeclub })

/-- The Reconciler: the script's four sequential merges. -/
def reconcile (referrals : List Referral) (logs : List LogRow)
    (rewards : List RewardRow) (txs : List TransRow) (users : List UserRow) : List Rec :=
  mergeReferrers (mergeTransactions (mergeRewards (mergeLogs (referrals.map initRec) logs) rewards) txs) users

/-! ### Validator (check_valid) -/

/-- `str(row.get(col))` for a nullable string column: a null (NaN) cell
stringifies to `"nan"`.  (With the column missing entirely the script gets
`""` instead; both are distinct from every literal the predicate compares
against, so the branch taken is the same.) -/
def strOrNan (o : Option String) : String :=
  match o with
  | some s => s
  | none => "nan"

/-- `pd.to_datetime(_, errors='coerce')` on a nullable raw value. -/
def toDatetime (o : Option String) : Option DT := o.bind parseDT

/-- `t >= a` on two pandas Timestamps.  Two naive values compare by wall
clock, two aware values by instant; comparing a tz-aware with a tz-naive
Timestamp raises `TypeError` (`none`) — `check_valid` never localizes its
operands, so this error escapes and aborts the script. -/
def tsCompare (t a : DT) : Option Bool :=
  match t.tz, a.tz with
  | none, some _ => none
  | some _, none => none
  | _, _ => some (decide (dtInstant a ≤ dtInstant t))

/-- The conjuncts of "Valid 1" before the timestamp comparison, in source
order; Python's `and` short-circuits, so the comparison is only evaluated
when all of these hold (in particular both timestamps parsed). -/
def ruleAPre (r : Rec) : Bool :=
  (match r.reward_value with | some v => decide (0 < v) | none => false) &&
  strLower (strOrNan r.description) == "berhasil" &&
  r.transaction_id.isSome &&
  strUpper (strOrNan r.transaction_status) == "PAID" &&
  strUpper (strOrNan r.transaction_type) == "NEW" &&
  (toDatetime r.transaction_at).isSome &&
  (toDatetime r.referral_at).isSome

/-- Rule A ("Valid 1"): rewarded success.  `some b` when the condition
evaluates to `b`; `none` when evaluating it raises `TypeError` (short
circuit reached `tx_time >= ref_time` with one aware and one naive
operand). -/
def ruleA (r : Rec) : Option Bool :=
  if ruleAPre r then
    match toDatetime r.transaction_at, toDatetime r.referral_at with
    | some t, some a =>
      match tsCompare t a with
      | some cmp => some (cmp && r.reward_granted_at.isSome)
      | none => none
    | _, _ => some false
  else some false

/-- Rule B ("Valid 2"): pending/failed and unrewarded (total: no
exception-raising operation). -/
def ruleB (r : Rec) : Bool :=
  (strLower (strOrNan r.description) == "menunggu" ||
   strLower (strOrNan r.description) == "tidak berhasil") &&
  r.reward_value.isNone

/-- `check_valid`: the script's two-branch predicate.  `none` when the
Rule A test raises (the exception is uncaught: the script aborts and the
row gets no validity value). -/
def check_valid (r : Rec) : Option Bool :=
  match ruleA r with
  | none => none
  | some true => some true
  | some false => if ruleB r then some true else some false

/-- The validator with the two rules tried in the opposite order. -/
def check_valid_swapped (r : Rec) : Option Bool :=
  if ruleB r then some true
  else
    match ruleA r with
    | none => none
    | some true => some true
    | some false => some false

/-! ### Helper lemmas -/

theorem filter_len_le_one {τ β : Type} [BEq β] [LawfulBEq β] (tbl : List τ) (key : τ → β)
    (h : (tbl.map key).Nodup) (v : β) :
    (tbl.filter (fun t => v == key t)).length ≤ 1 := by
  induction tbl with
  | nil => simp
  | cons t ts ih =>
    rw [List.map_cons, List.nodup_cons] at h
    by_cases hv : (v == key t) = true
    · have hv2 : v = key t := eq_of_beq hv
      have hnil : ts.filter (fun u => v == key u) = [] := by
        rw [List.filter_eq_nil_iff]
        intro u hu hbeq
        exact h.1 (List.mem_map.mpr ⟨u, hu, by rw [← eq_of_beq hbeq, hv2]⟩)
      simp [List.filter_cons, hv, hnil]
    · simp only [List.filter_cons, hv, if_neg]
      simpa using ih h.2

theorem leftJoin1_length {τ : Type} (recs : List Rec) (tbl : List τ)
    (hit : Rec → τ → Bool) (upd : Rec → τ → Rec)
    (h : ∀ x, (tbl.filter (hit x)).length ≤ 1) :
    (leftJoin1 recs tbl hit upd).length = recs.length := by
  induction recs with
  | nil => rfl
  | cons x xs ih =>
    have hx : (leftJoin1 (x :: xs) tbl hit upd) =
        (match tbl.filter (hit x) with
         | [] => [x]
         | m :: ms => (m :: ms).map (upd x)) ++ leftJoin1 xs tbl hit upd := by
      simp [leftJoin1]
    rw [hx, List.length_append, ih]
    have hone : (match tbl.filter (hit x) with
        | [] => [x]
        | m :: ms => (m :: ms).map (upd x)).length = 1 := by
      cases hf : tbl.filter (hit x) with
      | nil => rfl
      | cons m ms =>
        have hle := h x
        rw [hf] at hle
        have hms : ms.length = 0 := by
          rw [List.length_cons] at hle
          omega
        simp [List.length_map, List.length_cons, hms]
    rw [hone, List.length_cons]
    omega

theorem latestLogs_keys_nodup (logs : List LogRow) :
    ((latestLogs logs).map (fun m => m.user_referral_id)).Nodup := by
  have h1 : (latestLogs logs).map (fun m => m.user_referral_id) = logKeys logs := by
    rw [latestLogs, List.map_map]
    exact List.map_id _
  rw [h1, logKeys]
  exact ((List.perm_insertionSort _ _).nodup_iff).mpr (List.nodup_dedup _)

theorem latestLogs_mem_key (logs : List LogRow) (m : LatestLog) (hm : m ∈ latestLogs logs) :
    ∃ L ∈ logs, L.user_referral_id = m.user_referral_id := by
  rw [latestLogs] at hm
  obtain ⟨k, hk, hmk⟩ := List.mem_map.mp hm
  have hkey : m.user_referral_id = k := by rw [← hmk]
  rw [logKeys] at hk
  have hk2 : k ∈ (logs.map (fun r => r.user_referral_id)).dedup :=
    ((List.perm_insertionSort _ _).mem_iff).mp hk
  obtain ⟨L, hL, hLk⟩ := List.mem_map.mp (List.mem_dedup.mp hk2)
  exact ⟨L, hL, by rw [hLk, hkey]⟩

theorem leftJoin1_transport {τ : Type} (recs : List Rec) (tbl : List τ)
    (hit : Rec → τ → Bool) (upd : Rec → τ → Rec) (x : Rec) (hx : x ∈ recs) :
    ∃ y ∈ leftJoin1 recs tbl hit upd,
      y = x ∨ ∃ t ∈ tbl, hit x t = true ∧ y = upd x t := by
  cases h : tbl.filter (hit x) with
  | nil =>
    refine ⟨x, ?_, Or.inl rfl⟩
    apply List.mem_flatMap.mpr
    refine ⟨x, hx, ?_⟩
    rw [h]
    exact List.mem_singleton.mpr rfl
  | cons m ms =>
    have hm : m ∈ tbl.filter (hit x) := by rw [h]; exact List.mem_cons_self _ _
    have hmem := List.mem_filter.mp hm
    refine ⟨upd x m, ?_, Or.inr ⟨m, hmem.1, hmem.2, rfl⟩⟩
    apply List.mem_flatMap.mpr
    refine ⟨x, hx, ?_⟩
    rw [h]
    exact List.mem_map_of_mem _ (List.mem_cons_self m ms)

/-- The Referral-side columns of two records agree. -/
def eqReferralCols (y x : Rec) : Prop :=
  y.referral_id = x.referral_id ∧ y.referral_source = x.referral_source ∧
  y.referral_at = x.referral_at ∧ y.referrer_id = x.referrer_id ∧
  y.referee_id = x.referee_id ∧ y.referral_reward_id = x.referral_reward_id ∧
  y.transaction_id = x.transaction_id

/-- The log-derived columns agree. -/
def eqLogCols (y x : Rec) : Prop :=
  y.created_at = x.created_at ∧ y.description = x.description

/-- The reward-derived columns agree. -/
def eqRewardCols (y x : Rec) : Prop :=
  y.reward_value = x.reward_value ∧ y.reward_granted_at = x.reward_granted_at

/-- The transaction-derived columns agree. -/
def eqTxCols (y x : Rec) : Prop :=
  y.transaction_status = x.transaction_status ∧ y.transaction_type = x.transaction_type ∧
  y.transaction_at = x.transaction_at ∧ y.timezone_transaction = x.timezone_transaction ∧
  y.transaction_at_local = x.transaction_at_local

/-- The referrer-derived columns agree. -/
def eqUserCols (y x : Rec) : Prop :=
  y.referrer_name = x.referrer_name ∧ y.referrer_phone_number = x.referrer_phone_number ∧
  y.referrer_homeclub = x.referrer_homeclub

theorem eqReferralCols_trans {a b c : Rec} (h1 : eqReferralCols a b) (h2 : eqReferralCols b c) :
    eqReferralCols a c := by
  obtain ⟨p1, p2, p3, p4, p5, p6, p7⟩ := h1
  obtain ⟨q1, q2, q3, q4, q5, q6, q7⟩ := h2
  exact ⟨p1.trans q1, p2.trans q2, p3.trans q3, p4.trans q4, p5.trans q5, p6.trans q6, p7.trans q7⟩

theorem eqLogCols_trans {a b c : Rec} (h1 : eqLogCols a b) (h2 : eqLogCols b c) :
    eqLogCols a c :=
  ⟨h1.1.trans h2.1, h1.2.trans h2.2⟩

theorem eqRewardCols_trans {a b c : Rec} (h1 : eqRewardCols a b) (h2 : eqRewardCols b c) :
    eqRewardCols a c :=
  ⟨h1.1.trans h2.1, h1.2.trans h2.2⟩

theorem eqTxCols_trans {a b c : Rec} (h1 : eqTxCols a b) (h2 : eqTxCols b c) :
    eqTxCols a c := by
  obtain ⟨p1, p2, p3, p4, p5⟩ := h1
  obtain ⟨q1, q2, q3, q4, q5⟩ := h2
  exact ⟨p1.trans q1, p2.trans q2, p3.trans q3, p4.trans q4, p5.trans q5⟩

theorem eqUserCols_trans {a b c : Rec} (h1 : eqUserCols a b) (h2 : eqUserCols b c) :
    eqUserCols a c :=
  ⟨h1.1.trans h2.1, h1.2.1.trans h2.2.1, h1.2.2.trans h2.2.2⟩

theorem eqCols_refl (x : Rec) :
    eqReferralCols x x ∧ eqLogCols x x ∧ eqRewardCols x x ∧ eqTxCols x x ∧ eqUserCols x x := by
  refine ⟨?_, ?_, ?_, ?_, ?_⟩ <;>
    simp [eqReferralCols, eqLogCols, eqRewardCols, eqTxCols, eqUserCols]

theorem mergeLogs_transport (recs : List Rec) (logs : List LogRow) (x : Rec) (hx : x ∈ recs) :
    ∃ y ∈ mergeLogs recs logs,
      eqReferralCols y x ∧ eqRewardCols y x ∧ eqTxCols y x ∧ eqUserCols y x ∧
      ((∀ L ∈ logs, L.user_referral_id ≠ x.referral_id) → eqLogCols y x) := by
  rw [mergeLogs]
  split
  · exact ⟨x, hx, (eqCols_refl x).1, (eqCols_refl x).2.2.1, (eqCols_refl x).2.2.2.1,
      (eqCols_refl x).2.2.2.2, fun _ => (eqCols_refl x).2.1⟩
  · obtain ⟨y, hy, hcase⟩ := leftJoin1_transport recs (latestLogs logs)
      (fun x m => x.referral_id == m.user_referral_id)
      (fun x m => { x with created_at := some m.created_at, description := m.description }) x hx
    refine ⟨y, hy, ?_⟩
    cases hcase with
    | inl heq =>
      subst heq
      exact ⟨(eqCols_refl y).1, (eqCols_refl y).2.2.1, (eqCols_refl y).2.2.2.1,
        (eqCols_refl y).2.2.2.2, fun _ => (eqCols_refl y).2.1⟩
    | inr hupd =>
      obtain ⟨m, hmtbl, hhit, hyeq⟩ := hupd
      subst hyeq
      refine ⟨?_, ?_, ?_, ?_, ?_⟩
      · simp [eqReferralCols]
      · simp [eqRewardCols]
      · simp [eqTxCols]
      · simp [eqUserCols]
      · intro hnone
        obtain ⟨L, hL, hLk⟩ := latestLogs_mem_key logs m hmtbl
        exact absurd (hLk.trans (eq_of_beq hhit).symm) (hnone L hL)

theorem mergeRewards_transport (recs : List Rec) (rewards : List RewardRow) (x : Rec)
    (hx : x ∈ recs) :
    ∃ y ∈ mergeRewards recs rewards,
      eqReferralCols y x ∧ eqLogCols y x ∧ eqTxCols y x ∧ eqUserCols y x ∧
      ((∀ w ∈ rewards, some w.id ≠ x.referral_reward_id) → eqRewardCols y x) := by
  rw [mergeRewards]
  split
  · exact ⟨x, hx, (eqCols_refl x).1, (eqCols_refl x).2.1, (eqCols_refl x).2.2.2.1,
      (eqCols_refl x).2.2.2.2, fun _ => (eqCols_refl x).2.2.1⟩
  · obtain ⟨y, hy, hcase⟩ := leftJoin1_transport recs rewards
      (fun x w => x.referral_reward_id == some w.id)
      (fun x w => { x with reward_value := w.reward_value,
                           reward_granted_at := w.reward_granted_at }) x hx
    refine ⟨y, hy, ?_⟩
    cases hcase with
    | inl heq =>
      subst heq
      exact ⟨(eqCols_refl y).1, (eqCols_refl y).2.1, (eqCols_refl y).2.2.2.1,
        (eqCols_refl y).2.2.2.2, fun _ => (eqCols_refl y).2.2.1⟩
    | inr hupd =>
      obtain ⟨w, hwtbl, hhit, hyeq⟩ := hupd
      subst hyeq
      refine ⟨?_, ?_, ?_, ?_, ?_⟩
      · simp [eqReferralCols]
      · simp [eqLogCols]
      · simp [eqTxCols]
      · simp [eqUserCols]
      · intro hnone
        exact absurd (eq_of_beq hhit).symm (hnone w hwtbl)

theorem mergeTransactions_transport (recs : List Rec) (txs : List TransRow) (x : Rec)
    (hx : x ∈ recs) :
    ∃ y ∈ mergeTransactions recs txs,
      eqReferralCols y x ∧ eqLogCols y x ∧ eqRewardCols y x ∧ eqUserCols y x ∧
      ((∀ t ∈ txs, some t.transaction_id ≠ x.transaction_id) → eqTxCols y x) := by
  rw [mergeTransactions]
  split
  · exact ⟨x, hx, (eqCols_refl x).1, (eqCols_refl x).2.1, (eqCols_refl x).2.2.1,
      (eqCols_refl x).2.2.2.2, fun _ => (eqCols_refl x).2.2.2.1⟩
  · obtain ⟨y, hy, hcase⟩ := leftJoin1_transport recs txs
      (fun x t => x.transaction_id == some t.transaction_id)
      (fun x t => { x with transaction_status := t.transaction_status,
                           transaction_type := t.transaction_type,
                           transaction_at := t.transaction_at,
                           timezone_transaction := t.timezone_transaction,
                           transaction_at_local := t.transaction_at_local }) x hx
    refine ⟨y, hy, ?_⟩
    cases hcase with
    | inl heq =>
      subst heq
      exact ⟨(eqCols_refl y).1, (eqCols_refl y).2.1, (eqCols_refl y).2.2.1,
        (eqCols_refl y).2.2.2.2, fun _ => (eqCols_refl y).2.2.2.1⟩
    | inr hupd =>
      obtain ⟨t, httbl, hhit, hyeq⟩ := hupd
      subst hyeq
      refine ⟨?_, ?_, ?_, ?_, ?_⟩
      · simp [eqReferralCols]
      · simp [eqLogCols]
      · simp [eqRewardCols]
      · simp [eqUserCols]
      · intro hnone
        exact absurd (eq_of_beq hhit).symm (hnone t httbl)

theorem mergeReferrers_transport (recs : List Rec) (users : List UserRow) (x : Rec)
    (hx : x ∈ recs) :
    ∃ y ∈ mergeReferrers recs users,
      eqReferralCols y x ∧ eqLogCols y x ∧ eqRewardCols y x ∧ eqTxCols y x ∧
      ((∀ u ∈ users, some u.user_id ≠ x.referrer_id) → eqUserCols y x) := by
  rw [mergeReferrers]
  split
  · exact ⟨x, hx, (eqCols_refl x).1, (eqCols_refl x).2.1, (eqCols_refl x).2.2.1,
      (eqCols_refl x).2.2.2.1, fun _ => (eqCols_refl x).2.2.2.2⟩
  · obtain ⟨y, hy, hcase⟩ := leftJoin1_transport recs users
      (fun x u => x.referrer_id == some u.user_id)
      (fun x u => { x with referrer_name := u.name,
                           referrer_phone_number := u.phone_number,
                           referrer_homeclub := u.homeclub }) x hx
    refine ⟨y, hy, ?_⟩
    cases hcase with
    | inl heq =>
      subst heq
      exact ⟨(eqCols_refl y).1, (eqCols_refl y).2.1, (eqCols_refl y).2.2.1,
        (eqCols_refl y).2.2.2.1, fun _ => (eqCols_refl y).2.2.2.2⟩
    | inr hupd =>
      obtain ⟨u, hutbl, hhit, hyeq⟩ := hupd
      subst hyeq
      refine ⟨?_, ?_, ?_, ?_, ?_⟩
      · simp [eqReferralCols]
      · simp [eqLogCols]
      · simp [eqRewardCols]
      · simp [eqTxCols]
      · intro hnone
        exact absurd (eq_of_beq hhit).symm (hnone u hutbl)

theorem sorted_le_getLast {l : List LogRow}
    (hs : List.Sorted (fun a b : LogRow => a.created_at ≤ b.created_at) l)
    (hne : l ≠ []) (r : LogRow) (hr : r ∈ l) :
    r.created_at ≤ (l.getLast hne).created_at := by
  induction l with
  | nil => cases hr
  | cons a t ih =>
    cases t with
    | nil =>
      have hra : r = a := by simpa using hr
      subst hra
      simp [List.getLast]
    | cons b t2 =>
      rw [List.getLast_cons (by simp)]
      cases List.mem_cons.mp hr with
      | inl hra =>
        subst hra
        exact (List.sorted_cons.mp hs).1 _ (List.getLast_mem _)
      | inr hrt => exact ih (List.sorted_cons.mp hs).2 (by simp) hrt

theorem logKeys_mem (logs : List LogRow) (k : Nat) (hk : k ∈ logKeys logs) :
    ∃ L ∈ logs, L.user_referral_id = k := by
  rw [logKeys] at hk
  have hk2 : k ∈ (logs.map (fun r => r.user_referral_id)).dedup :=
    ((List.perm_insertionSort _ _).mem_iff).mp hk
  obtain ⟨L, hL, hLk⟩ := List.mem_map.mp (List.mem_dedup.mp hk2)
  exact ⟨L, hL, hLk⟩

theorem latestLogs_created_at_max (logs : List LogRow) (e : LatestLog)
    (he : e ∈ latestLogs logs) :
    (∀ r ∈ logs, r.user_referral_id = e.user_referral_id → r.created_at ≤ e.created_at) ∧
    (∃ r ∈ logs, r.user_referral_id = e.user_referral_id ∧ r.created_at = e.created_at) := by
  rw [latestLogs] at he
  obtain ⟨k, hk, rfl⟩ := List.mem_map.mp he
  obtain ⟨L0, hL0, hL0k⟩ := logKeys_mem logs k hk
  have hL0s : L0 ∈ sortLogs logs := ((List.perm_insertionSort _ _).mem_iff).mpr hL0
  have hL0G : L0 ∈ groupRows logs k := List.mem_filter.mpr ⟨hL0s, by simp [hL0k]⟩
  have hGne : groupRows logs k ≠ [] := List.ne_nil_of_mem hL0G
  have hgl : (groupRows logs k).getLast? = some ((groupRows logs k).getLast hGne) :=
    List.getLast?_eq_getLast _ hGne
  have hsorted : List.Sorted (fun a b : LogRow => a.created_at ≤ b.created_at) (sortLogs logs) :=
    List.sorted_insertionSort _ _
  have hGsorted : List.Sorted (fun a b : LogRow => a.created_at ≤ b.created_at) (groupRows logs k) :=
    List.Pairwise.filter _ hsorted
  have hglast_mem : (groupRows logs k).getLast hGne ∈ groupRows logs k := List.getLast_mem _
  have hglast_filter := List.mem_filter.mp hglast_mem
  constructor
  · intro r hr hkeq
    have hrs : r ∈ sortLogs logs := ((List.perm_insertionSort _ _).mem_iff).mpr hr
    have hrG : r ∈ groupRows logs k := List.mem_filter.mpr ⟨hrs, by simp; exact hkeq⟩
    simp only [hgl]
    exact sorted_le_getLast hGsorted hGne r hrG
  · refine ⟨(groupRows logs k).getLast hGne, ?_, ?_, ?_⟩
    · exact ((List.perm_insertionSort _ _).mem_iff).mp hglast_filter.1
    · simpa using hglast_filter.2
    · simp only [hgl]

theorem latestLogs_pair (k t1 t2 : Nat) (d1 d2 : Option String) (h : t1 < t2) :
    latestLogs [⟨k, t1, d1⟩, ⟨k, t2, d2⟩] = [⟨k, t2, if d2.isSome then d2 else d1⟩] := by
  have hle : t1 ≤ t2 := Nat.le_of_lt h
  have hkeys : logKeys [⟨k, t1, d1⟩, ⟨k, t2, d2⟩] = [k] := by
    simp [logKeys, List.dedup_cons_of_mem, List.insertionSort, List.orderedInsert]
  have hsort : sortLogs [⟨k, t1, d1⟩, ⟨k, t2, d2⟩] = [⟨k, t1, d1⟩, ⟨k, t2, d2⟩] := by
    simp [sortLogs, List.insertionSort, List.orderedInsert, hle]
  have hgrp : groupRows [⟨k, t1, d1⟩, ⟨k, t2, d2⟩] k = [⟨k, t1, d1⟩, ⟨k, t2, d2⟩] := by
    simp [groupRows, hsort, List.filter]
  rw [latestLogs, hkeys]
  simp [hgrp, lastSome]
  cases d2 with
  | none => cases d1 <;> simp
  | some v => simp

/-! ### Bridging lemmas for the validator -/

theorem matchPos_iff (o : Option Int) :
    (match o with | some v => decide (0 < v) | none => false) = true ↔
      ∃ v, o = some v ∧ 0 < v := by
  cases o <;> simp

theorem lower_eq_iff (o : Option String) (lit : String)
    (hnan : (strLower "nan" == lit) = false) :
    (strLower (strOrNan o) == lit) = true ↔ ∃ s, o = some s ∧ strLower s = lit := by
  cases o with
  | none => simp [strOrNan, hnan]
  | some s => simp [strOrNan]

theorem upper_eq_iff (o : Option String) (lit : String)
    (hnan : (strUpper "nan" == lit) = false) :
    (strUpper (strOrNan o) == lit) = true ↔ ∃ s, o = some s ∧ strUpper s = lit := by
  cases o with
  | none => simp [strOrNan, hnan]
  | some s => simp [strOrNan]

theorem ruleAPre_iff (r : Rec) :
    ruleAPre r = true ↔
      ((∃ v, r.reward_value = some v ∧ 0 < v) ∧
       (∃ s, r.description = some s ∧ strLower s = "berhasil") ∧
       r.transaction_id ≠ none ∧
       (∃ s, r.transaction_status = some s ∧ strUpper s = "PAID") ∧
       (∃ s, r.transaction_type = some s ∧ strUpper s = "NEW") ∧
       (toDatetime r.transaction_at).isSome = true ∧
       (toDatetime r.referral_at).isSome = true) := by
  have hd := fun o => lower_eq_iff o "berhasil" (by decide)
  have hp := fun o => upper_eq_iff o "PAID" (by decide)
  have hn := fun o => upper_eq_iff o "NEW" (by decide)
  simp only [ruleAPre, Bool.and_eq_true, matchPos_iff, hd, hp, hn,
    Option.ne_none_iff_isSome]
  tauto

theorem ruleB_iff (r : Rec) :
    ruleB r = true ↔
      ((∃ s, r.description = some s ∧
          (strLower s = "menunggu" ∨ strLower s = "tidak berhasil")) ∧
       r.reward_value = none) := by
  have hm := fun o => lower_eq_iff o "menunggu" (by decide)
  have ht := fun o => lower_eq_iff o "tidak berhasil" (by decide)
  simp only [ruleB, Bool.and_eq_true, Bool.or_eq_true, hm, ht, Option.isNone_iff_eq_none]
  constructor
  · rintro ⟨hor, hnone⟩
    cases hor with
    | inl h => obtain ⟨s, hs, hl⟩ := h; exact ⟨⟨s, hs, Or.inl hl⟩, hnone⟩
    | inr h => obtain ⟨s, hs, hl⟩ := h; exact ⟨⟨s, hs, Or.inr hl⟩, hnone⟩
  · rintro ⟨⟨s, hs, hor⟩, hnone⟩
    cases hor with
    | inl h => exact ⟨Or.inl ⟨s, hs, h⟩, hnone⟩
    | inr h => exact ⟨Or.inr ⟨s, hs, h⟩, hnone⟩

/-! ### Test vectors (spec §8) -/

/-- The Rule A record of spec §8. -/
def recRuleA : Rec :=
  { referral_id := 1, referral_source := none, referral_at := some "2024-01-01T00:00Z",
    referrer_id := none, referee_id := none, referral_reward_id := none,
    transaction_id := some "TX1", created_at := none, description := some "Berhasil",
    reward_value := some 50000, reward_granted_at := some "2024-01-03T00:00Z",
    transaction_status := some "paid", transaction_type := some "new",
    transaction_at := some "2024-01-02T00:00Z", timezone_transaction := none,
    transaction_at_local := none, referrer_name := none, referrer_phone_number := none,
    referrer_homeclub := none }

/-- Same record with transaction_at moved before referral_at. -/
def recRuleA_early : Rec := { recRuleA with transaction_at := some "2023-12-31T00:00Z" }

/-- The Rule B record of spec §8 (pending, no reward). -/
def recRuleB : Rec := { recRuleA with description := some "Menunggu", reward_value := none }

/-- The invalid Rule B record of spec §8 (pending but rewarded). -/
def recRuleB_rewarded : Rec :=
  { recRuleA with description := some "Menunggu", reward_value := some 100 }

/-! ### The claims -/

/-- C1: Rule A of the validator accepts (returns, and returns true) exactly
when reward_value is non-null and strictly positive, description equals
"berhasil" case-insensitively, transaction_id is non-null,
transaction_status upper-cases to "PAID", transaction_type upper-cases to
"NEW", both timestamps parse and their comparison transaction_at ≥
referral_at is defined and holds (mixed tz-aware/naive operands raise
`TypeError` instead of returning — `tsCompare = some true` excludes them),
and reward_granted_at is non-null; the concrete §8 record is valid and its
early-transaction variant invalid. -/
theorem C1_ruleA_characterization :
    (∀ r : Rec,
      ruleA r = some true ↔
        ((∃ v, r.reward_value = some v ∧ 0 < v) ∧
         (∃ s, r.description = some s ∧ strLower s = "berhasil") ∧
         r.transaction_id ≠ none ∧
         (∃ s, r.transaction_status = some s ∧ strUpper s = "PAID") ∧
         (∃ s, r.transaction_type = some s ∧ strUpper s = "NEW") ∧
         (∃ t a, toDatetime r.transaction_at = some t ∧ toDatetime r.referral_at = some a ∧
            tsCompare t a = some true) ∧
         r.reward_granted_at ≠ none)) ∧
    check_valid recRuleA = some true ∧
    check_valid recRuleA_early = some false := by
  refine ⟨?_, by decide, by decide⟩
  intro r
  constructor
  · intro h
    rw [ruleA] at h
    cases hpre : ruleAPre r with
    | false => rw [hpre] at h; simp at h
    | true =>
      rw [hpre, if_pos rfl] at h
      obtain ⟨a1, a2, a3, a4, a5, h6, h7⟩ := (ruleAPre_iff r).mp hpre
      obtain ⟨t, ht⟩ := Option.isSome_iff_exists.mp h6
      obtain ⟨a, ha⟩ := Option.isSome_iff_exists.mp h7
      simp only [ht, ha] at h
      cases hc : tsCompare t a with
      | none => simp only [hc] at h; exact Option.noConfusion h
      | some cmp =>
        simp only [hc, Option.some.injEq, Bool.and_eq_true] at h
        refine ⟨a1, a2, a3, a4, a5, ⟨t, a, ht, ha, ?_⟩, ?_⟩
        · rw [hc, h.1]
        · exact Option.ne_none_iff_isSome.mpr h.2
  · rintro ⟨a1, a2, a3, a4, a5, ⟨t, a, ht, ha, hc⟩, h9⟩
    have hpre : ruleAPre r = true :=
      (ruleAPre_iff r).mpr ⟨a1, a2, a3, a4, a5, by rw [ht]; rfl, by rw [ha]; rfl⟩
    have hgr : r.reward_granted_at.isSome = true := Option.ne_none_iff_isSome.mp h9
    rw [ruleA, hpre, if_pos rfl]
    simp only [ht, ha, hc, hgr, Bool.and_true]

/-- C2: with the joined tables' declared keys unique (the latest-log table
is deduplicated by construction), the Reconciler emits exactly one record
per Referral row, whatever combination of empty or non-empty tables is
joined. -/
theorem C2_row_count_preservation (referrals : List Referral) (logs : List LogRow)
    (rewards : List RewardRow) (txs : List TransRow) (users : List UserRow)
    (hw : (rewards.map (fun w => w.id)).Nodup)
    (ht : (txs.map (fun t => t.transaction_id)).Nodup)
    (hu : (users.map (fun u => u.user_id)).Nodup) :
    (reconcile referrals logs rewards txs users).length = referrals.length := by
  rw [reconcile]
  have h1 : ∀ recs : List Rec, (mergeLogs recs logs).length = recs.length := by
    intro recs
    rw [mergeLogs]
    split
    · rfl
    · exact leftJoin1_length _ _ _ _
        (fun x => filter_len_le_one _ _ (latestLogs_keys_nodup logs) _)
  have h2 : ∀ recs : List Rec, (mergeRewards recs rewards).length = recs.length := by
    intro recs
    rw [mergeRewards]
    split
    · rfl
    · refine leftJoin1_length _ _ _ _ (fun x => ?_)
      have hnd : (rewards.map (fun w => (some w.id : Option Nat))).Nodup := by
        have hmapped := List.Nodup.map (Option.some_injective Nat) hw
        rwa [List.map_map] at hmapped
      exact filter_len_le_one _ _ hnd _
  have h3 : ∀ recs : List Rec, (mergeTransactions recs txs).length = recs.length := by
    intro recs
    rw [mergeTransactions]
    split
    · rfl
    · refine leftJoin1_length _ _ _ _ (fun x => ?_)
      have hnd : (txs.map (fun t => (some t.transaction_id : Option String))).Nodup := by
        have hmapped := List.Nodup.map (Option.some_injective String) ht
        rwa [List.map_map] at hmapped
      exact filter_len_le_one _ _ hnd _
  have h4 : ∀ recs : List Rec, (mergeReferrers recs users).length = recs.length := by
    intro recs
    rw [mergeReferrers]
    split
    · rfl
    · refine leftJoin1_length _ _ _ _ (fun x => ?_)
      have hnd : (users.map (fun u => (some u.user_id : Option Nat))).Nodup := by
        have hmapped := List.Nodup.map (Option.some_injective Nat) hu
        rwa [List.map_map] at hmapped
      exact filter_len_le_one _ _ hnd _
  rw [h4, h3, h2, h1, List.length_map]

/-- C2 witness: one referral joined against one matching row per table. -/
theorem C2_row_count_witness :
    (reconcile [⟨1, some "src", some "2024-01-01T00:00Z", some 9, some 2, some 7, some "TX1"⟩]
      [⟨1, 5, some "Berhasil"⟩] [⟨7, some 50000, some "2024-01-03T00:00Z"⟩]
      [⟨"TX1", some "paid", some "new", some "2024-01-02T00:00Z", none, none⟩]
      [⟨9, some "John", some "0812", some "Club"⟩]).length = 1 :=
  C2_row_count_preservation _ _ _ _ _ (by decide) (by decide) (by decide)

/-- C3 counterexample: two log rows for referral 1 with created_at 5 < 10,
where the later row's description is null.  `GroupBy.last` takes the last
non-null entry per column, so the stage emits created_at from the second
row but description from the first — not the entire maximal row, and not
the row with created_at = T2. -/
theorem C3_entire_row_counterexample :
    latestLogs [⟨1, 5, some "a"⟩, ⟨1, 10, none⟩] = [⟨1, 10, some "a"⟩] ∧
    latestLogs [⟨1, 5, some "a"⟩, ⟨1, 10, none⟩] ≠ [⟨1, 10, none⟩] :=
  ⟨by decide, by decide⟩

/-- C3 (amended): within each group the stage takes, per column
independently, the last non-null value in stable created_at-ascending
order.  For two rows with created_at t1 < t2 the result carries
created_at = t2 but the earlier description when the later one is null;
and in general the emitted created_at is attained by a row of the group
and bounds every row of the group from above. -/
theorem C3_latest_log_amended :
    (∀ (k t1 t2 : Nat) (d1 d2 : Option String), t1 < t2 →
      latestLogs [⟨k, t1, d1⟩, ⟨k, t2, d2⟩] = [⟨k, t2, if d2.isSome then d2 else d1⟩]) ∧
    (∀ (logs : List LogRow) (e : LatestLog), e ∈ latestLogs logs →
      (∀ r ∈ logs, r.user_referral_id = e.user_referral_id → r.created_at ≤ e.created_at) ∧
      (∃ r ∈ logs, r.user_referral_id = e.user_referral_id ∧ r.created_at = e.created_at)) :=
  ⟨latestLogs_pair, latestLogs_created_at_max⟩

/-- C4: when the Rule A test evaluates to false (in particular without
raising), the validator accepts exactly the records whose description is
"menunggu" or "tidak berhasil" case-insensitively with a null
reward_value; records matching neither rule get the returned value false;
the §8 Rule B records evaluate as specified. -/
theorem C4_ruleB_characterization :
    (∀ r : Rec, ruleA r = some false →
      (check_valid r = some true ↔
        ((∃ s, r.description = some s ∧
            (strLower s = "menunggu" ∨ strLower s = "tidak berhasil")) ∧
         r.reward_value = none))) ∧
    (∀ r : Rec, ruleA r = some false → ruleB r = false → check_valid r = some false) ∧
    check_valid recRuleB = some true ∧
    check_valid recRuleB_rewarded = some false := by
  refine ⟨?_, ?_, by decide, by decide⟩
  · intro r hA
    rw [← ruleB_iff r]
    cases hB : ruleB r <;> simp [check_valid, hA, hB]
  · intro r hA hB
    simp [check_valid, hA, hB]

/-- C5: every Referral row survives every join stage: a record with its
exact Referral columns is in the Reconciler's output, and whenever a stage
finds no match (no log with its key, no reward with its reward id, no
transaction with its transaction_id, no user with its referrer_id — in
particular when that source table is empty/absent), that stage's columns
in the record are all null. -/
theorem C5_left_join_no_drop (referrals : List Referral) (logs : List LogRow)
    (rewards : List RewardRow) (txs : List TransRow) (users : List UserRow)
    (rr : Referral) (hr : rr ∈ referrals) :
    ∃ y ∈ reconcile referrals logs rewards txs users,
      y.referral_id = rr.referral_id ∧ y.referral_source = rr.referral_source ∧
      y.referral_at = rr.referral_at ∧ y.referrer_id = rr.referrer_id ∧
      y.referee_id = rr.referee_id ∧ y.referral_reward_id = rr.referral_reward_id ∧
      y.transaction_id = rr.transaction_id ∧
      ((∀ L ∈ logs, L.user_referral_id ≠ rr.referral_id) →
        y.created_at = none ∧ y.description = none) ∧
      ((∀ w ∈ rewards, some w.id ≠ rr.referral_reward_id) →
        y.reward_value = none ∧ y.reward_granted_at = none) ∧
      ((∀ t ∈ txs, some t.transaction_id ≠ rr.transaction_id) →
        y.transaction_status = none ∧ y.transaction_type = none ∧
        y.transaction_at = none ∧ y.timezone_transaction = none ∧
        y.transaction_at_local = none) ∧
      ((∀ u ∈ users, some u.user_id ≠ rr.referrer_id) →
        y.referrer_name = none ∧ y.referrer_phone_number = none ∧
        y.referrer_homeclub = none) := by
  have hx0 : initRec rr ∈ referrals.map initRec := List.mem_map_of_mem _ hr
  obtain ⟨y1, hy1, e1r, e1w, e1t, e1u, e1log⟩ := mergeLogs_transport _ logs (initRec rr) hx0
  obtain ⟨y2, hy2, e2r, e2log, e2t, e2u, e2w⟩ := mergeRewards_transport _ rewards y1 hy1
  obtain ⟨y3, hy3, e3r, e3log, e3w, e3u, e3t⟩ := mergeTransactions_transport _ txs y2 hy2
  obtain ⟨y4, hy4, e4r, e4log, e4w, e4t, e4u⟩ := mergeReferrers_transport _ users y3 hy3
  have hr41 : eqReferralCols y4 (initRec rr) :=
    eqReferralCols_trans e4r (eqReferralCols_trans e3r (eqReferralCols_trans e2r e1r))
  refine ⟨y4, hy4, hr41.1, hr41.2.1, hr41.2.2.1, hr41.2.2.2.1, hr41.2.2.2.2.1,
    hr41.2.2.2.2.2.1, hr41.2.2.2.2.2.2, ?_, ?_, ?_, ?_⟩
  · intro hlog
    have hlog0 : ∀ L ∈ logs, L.user_referral_id ≠ (initRec rr).referral_id := hlog
    have hchain : eqLogCols y4 (initRec rr) :=
      eqLogCols_trans e4log (eqLogCols_trans e3log (eqLogCols_trans e2log (e1log hlog0)))
    exact ⟨hchain.1, hchain.2⟩
  · intro hrew
    have hrew1 : ∀ w ∈ rewards, some w.id ≠ y1.referral_reward_id := by
      intro w hwm
      rw [e1r.2.2.2.2.2.1]
      exact hrew w hwm
    have hchain : eqRewardCols y4 (initRec rr) :=
      eqRewardCols_trans e4w (eqRewardCols_trans e3w (eqRewardCols_trans (e2w hrew1) e1w))
    exact ⟨hchain.1, hchain.2⟩
  · intro htx
    have htx2 : ∀ t ∈ txs, some t.transaction_id ≠ y2.transaction_id := by
      intro t htm
      rw [e2r.2.2.2.2.2.2, e1r.2.2.2.2.2.2]
      exact htx t htm
    have hchain : eqTxCols y4 (initRec rr) :=
      eqTxCols_trans e4t (eqTxCols_trans (e3t htx2) (eqTxCols_trans e2t e1t))
    exact ⟨hchain.1, hchain.2.1, hchain.2.2.1, hchain.2.2.2.1, hchain.2.2.2.2⟩
  · intro huser
    have huser3 : ∀ u ∈ users, some u.user_id ≠ y3.referrer_id := by
      intro u hum
      rw [e3r.2.2.2.1, e2r.2.2.2.1, e1r.2.2.2.1]
      exact huser u hum
    have hchain : eqUserCols y4 (initRec rr) :=
      eqUserCols_trans (e4u huser3) (eqUserCols_trans e3u (eqUserCols_trans e2u e1u))
    exact ⟨hchain.1, hchain.2.1, hchain.2.2⟩

/-- A referral whose foreign keys match nothing. -/
def wRef : Referral := ⟨1, none, none, some 9, none, some 7, some "TXZ"⟩

/-- A transaction whose key matches no referral. -/
def wTx : TransRow := ⟨"OTHER", none, none, none, none, none⟩

/-- C5 witness: a referral with no matching log, reward, transaction or
user keeps its record, with every joined column null. -/
theorem C5_left_join_witness :
    ∃ y ∈ reconcile [wRef] [] [] [wTx] [],
      y.referral_id = wRef.referral_id ∧ y.referral_source = wRef.referral_source ∧
      y.referral_at = wRef.referral_at ∧ y.referrer_id = wRef.referrer_id ∧
      y.referee_id = wRef.referee_id ∧ y.referral_reward_id = wRef.referral_reward_id ∧
      y.transaction_id = wRef.transaction_id ∧
      ((∀ L ∈ ([] : List LogRow), L.user_referral_id ≠ wRef.referral_id) →
        y.created_at = none ∧ y.description = none) ∧
      ((∀ w ∈ ([] : List RewardRow), some w.id ≠ wRef.referral_reward_id) →
        y.reward_value = none ∧ y.reward_granted_at = none) ∧
      ((∀ t ∈ [wTx], some t.transaction_id ≠ wRef.transaction_id) →
        y.transaction_status = none ∧ y.transaction_type = none ∧
        y.transaction_at = none ∧ y.timezone_transaction = none ∧
        y.transaction_at_local = none) ∧
      ((∀ u ∈ ([] : List UserRow), some u.user_id ≠ wRef.referrer_id) →
        y.referrer_name = none ∧ y.referrer_phone_number = none ∧
        y.referrer_homeclub = none) :=
  C5_left_join_no_drop [wRef] [] [] [wTx] [] wRef (by decide)

/-- C6: utc_to_local parses its input (null on failure and on null input,
never an error), assumes UTC for a naive value, converts to a recognized
zone dropping the zone annotation, passes an unrecognized zone through with
the instant unchanged, and maps 2024-06-01T10:00:00Z with Asia/Jakarta to
the naive local time 2024-06-01T17:00:00. -/
theorem C6_utc_to_local_spec :
    (∀ (s n : String) (off : Int) (d : DT), parseDT s = some d → lookupTZ n = some off →
      utc_to_local (some s) (some n) = some ⟨dtInstant d + off, none⟩) ∧
    (∀ (s n : String) (d : DT), parseDT s = some d → lookupTZ n = none →
      utc_to_local (some s) (some n) = some ⟨d.wall, some ((d.tz).getD 0)⟩) ∧
    (∀ (s : String) (tzn : Option String), parseDT s = none → utc_to_local (some s) tzn = none) ∧
    (∀ tzn : Option String, utc_to_local none tzn = none) ∧
    utc_to_local (some "2024-06-01T10:00:00Z") (some "Asia/Jakarta") =
      parseDT "2024-06-01T17:00:00" ∧
    (utc_to_local (some "2024-06-01T10:00:00Z") (some "Asia/Jakarta")).map
      (fun d => formatWall "T" d.wall) = some "2024-06-01T17:00:00" := by
  refine ⟨?_, ?_, ?_, ?_, by decide, by decide⟩
  · intro s n off d hp hl
    obtain ⟨w, tz⟩ := d
    cases tz with
    | none => simp [utc_to_local, hp, hl, dtInstant]
    | some z => simp [utc_to_local, hp, hl, dtInstant]
  · intro s n d hp hl
    obtain ⟨w, tz⟩ := d
    cases tz with
    | none => simp [utc_to_local, hp, hl]
    | some z => simp [utc_to_local, hp, hl]
  · intro s tzn hp
    cases tzn <;> simp [utc_to_local, hp]
  · intro tzn
    rfl

/-- C7: the initcap loop touches exactly the columns whose name has "name"
but not "homeclub" as a substring, mapping safe_initcap over their values;
safe_initcap keeps nulls, title-cases the stringified form of every other
convertible value, and passes a value whose conversion fails through
unchanged; referrer_name qualifies, referrer_homeclub does not. -/
theorem C7_initcap_spec :
    (∀ c : String, capColumn c = true ↔
      (List.IsInfix "name".data c.data ∧ ¬ List.IsInfix "homeclub".data c.data)) ∧
    (∀ (df : DF) (c : String) (vals : List Cell), (c, vals) ∈ df → capColumn c = true →
      (c, vals.map safe_initcap) ∈ initcapTable df) ∧
    (∀ (df : DF) (c : String) (vals : List Cell), (c, vals) ∈ df → capColumn c = false →
      (c, vals) ∈ initcapTable df) ∧
    safe_initcap .null = .null ∧
    (∀ (v : Cell) (s : String), v ≠ .null → pyStr v = some s →
      safe_initcap v = .str (pyTitle s)) ∧
    (∀ v : Cell, pyStr v = none → safe_initcap v = v) ∧
    capColumn "referrer_name" = true ∧ capColumn "referrer_homeclub" = false := by
  refine ⟨?_, ?_, ?_, rfl, ?_, ?_, by decide, by decide⟩
  · intro c
    simp [capColumn, subStr]
  · intro df c vals hmem hcap
    have hfn : (fun col : String × List Cell =>
        if capColumn col.1 then (col.1, col.2.map safe_initcap) else col) (c, vals) =
        (c, vals.map safe_initcap) := by simp [hcap]
    rw [initcapTable, ← hfn]
    exact List.mem_map_of_mem _ hmem
  · intro df c vals hmem hcap
    have hfn : (fun col : String × List Cell =>
        if capColumn col.1 then (col.1, col.2.map safe_initcap) else col) (c, vals) =
        (c, vals) := by simp [hcap]
    rw [initcapTable, ← hfn]
    exact List.mem_map_of_mem _ hmem
  · intro v s hv hs
    rw [safe_initcap, if_neg hv, hs]
  · intro v hv
    by_cases h : v = .null <;> simp [safe_initcap, h, hv]

/-- C8: the Table Loader returns the stored dataset when the source exists
and the empty dataset (no columns, hence zero rows) with only a warning
message when it is absent; being a total function it never fails. -/
theorem C8_read_csv_spec :
    (∀ (fs : String → Option DF) (nm : String) (t : DF), fs nm = some t →
      read_csv fs nm = (t, LoadMsg.reading nm)) ∧
    (∀ (fs : String → Option DF) (nm : String), fs nm = none →
      read_csv fs nm = (([] : DF), LoadMsg.missing nm)) ∧
    numRows ([] : DF) = 0 ∧ colNames ([] : DF) = [] := by
  refine ⟨?_, ?_, rfl, rfl⟩
  · intro fs nm t h
    rw [read_csv, h]
  · intro fs nm h
    rw [read_csv, h]

/-- C9: the three Normalizer transformations write disjoint tables, so all
six application orders produce the same four normalized tables. -/
theorem C9_normalizer_commutes : ∀ t : Tables,
    cleanNamesStep (coerceRewardStep (localizeStep t)) =
      localizeStep (coerceRewardStep (cleanNamesStep t)) ∧
    cleanNamesStep (coerceRewardStep (localizeStep t)) =
      cleanNamesStep (localizeStep (coerceRewardStep t)) ∧
    cleanNamesStep (coerceRewardStep (localizeStep t)) =
      coerceRewardStep (cleanNamesStep (localizeStep t)) ∧
    cleanNamesStep (coerceRewardStep (localizeStep t)) =
      coerceRewardStep (localizeStep (cleanNamesStep t)) ∧
    cleanNamesStep (coerceRewardStep (localizeStep t)) =
      localizeStep (cleanNamesStep (coerceRewardStep t)) := by
  intro t
  exact ⟨rfl, rfl, rfl, rfl, rfl⟩

/-- C10: no record satisfies both validator rules — Rule A accepts only
with a positive reward_value and Rule B only with a null one (a null
reward even keeps Rule A's test from raising, since its first conjunct
short-circuits the comparison away) — so the validator's outcome,
including the raising outcome, is the same whichever rule is tried
first. -/
theorem C10_rules_exclusive : ∀ r : Rec,
    ¬(ruleA r = some true ∧ ruleB r = true) ∧
    (r.reward_value = none → ruleA r = some false) ∧
    (ruleB r = true → r.reward_value = none) ∧
    check_valid r = check_valid_swapped r := by
  intro r
  have hnone : r.reward_value = none → ruleA r = some false := by
    intro h
    rw [ruleA, ruleAPre]
    simp [h]
  have hBnone : ruleB r = true → r.reward_value = none := by
    intro hB
    rw [ruleB, Bool.and_eq_true] at hB
    exact Option.isNone_iff_eq_none.mp hB.2
  refine ⟨?_, hnone, hBnone, ?_⟩
  · rintro ⟨hA, hB⟩
    rw [hnone (hBnone hB)] at hA
    exact absurd hA (by simp)
  · cases hB : ruleB r with
    | true => simp [check_valid, check_valid_swapped, hB, hnone (hBnone hB)]
    | false =>
      cases hA : ruleA r with
      | none => simp [check_valid, check_valid_swapped, hA, hB]
      | some b => cases b <;> simp [check_valid, check_valid_swapped, hA, hB]
